import Mathlib

/-! Runtime code generation in Go, part 1.

A shallow embedding of `codes/runtime_code_generation_in_go_part_1/main.go`:
the program maps ten pages read-write, stores one A64 instruction at the start
of the mapping, re-protects the mapping read-execute and jumps to it.

The operating system and the Go `syscall` package are outside the repository.
They appear here as a `Host`: the page size, the kernel's answers to `mmap` and
`mprotect`, and whether control comes back from the jump.  Everything the
program itself does (arguments, order of calls, error handling, bounds checks)
is translated from the source.
-/

namespace RuntimeCodeGen

/-! ## Constants of the `syscall` package -/

/-- The value of `syscall.PROT_READ`. -/
def PROT_READ : Nat := 0x1
/-- The value of `syscall.PROT_WRITE`. -/
def PROT_WRITE : Nat := 0x2
/-- The value of `syscall.PROT_EXEC`. -/
def PROT_EXEC : Nat := 0x4
/-- The value of `syscall.MAP_PRIVATE`. -/
def MAP_PRIVATE : Nat := 0x2
/-- The value of `syscall.MAP_ANON` (linux/arm64). -/
def MAP_ANON : Nat := 0x20

/-- An `errno` value, as carried by `syscall.Errno`. -/
abbrev Errno := Nat

/-- The value of `syscall.EINVAL`. -/
def EINVAL : Errno := 22

/-- Go `int` on arm64 is a 64-bit two-complement integer: the value an
unbounded result wraps to (`2 ^ 63 = 9223372036854775808`). -/
def goInt (z : Int) : Int :=
  (z + 9223372036854775808) % 18446744073709551616 - 9223372036854775808

/-- The largest page size the Go runtime accepts when it starts
(`runtime.maxPhysPageSize`, 512 KiB); `syscall.Getpagesize` returns the page
size the runtime validated against it. -/
def maxPhysPageSize : Nat := 524288

/-! ## Data model -/

/-- The arguments of one `syscall.Mmap` call. -/
structure MmapArgs where
  fd : Int
  offset : Int
  length : Int
  prot : Nat
  flags : Nat
deriving DecidableEq, Repr

/-- What the kernel hands back for a successful `mmap`: the address it chose
and the byte found at each offset of the fresh mapping. -/
structure Mapping where
  base : Nat
  init : Nat → Nat

/-- One memory mapping of the process: where it is, how long it is, its
protection bits and the byte stored at each offset. -/
structure Region where
  base : Nat
  len : Nat
  prot : Nat
  mem : Nat → Nat

/-- A Go `[]byte`: a pointer and a length. -/
structure Slice where
  ptr : Nat
  len : Nat
deriving DecidableEq, Repr

/-- The environment of the program. -/
structure Host where
  /-- The result of `syscall.Getpagesize()`. -/
  pagesize : Nat
  pagesize_le : pagesize ≤ maxPhysPageSize
  /-- The kernel's answer to an `mmap` request. -/
  mmap : MmapArgs → Except Errno Mapping
  /-- The kernel's answer to `mprotect addr len prot`: `none` is success. -/
  mprotect : Nat → Nat → Nat → Option Errno
  /-- Whether control comes back from a jump to the given address, given the
  mapping as it is at that moment. -/
  execReturns : Nat → Option Region → Bool

deriving instance DecidableEq for Except

/-- The operations on the region that the program performs. -/
inductive Event where
  /-- The `syscall.Mmap` call, with the address it returned or its error. -/
  | mmap (args : MmapArgs) (res : Except Errno Nat)
  /-- Bytes stored at an address. -/
  | write (addr : Nat) (bytes : List Nat)
  /-- The `syscall.Mprotect` call, with its error if any. -/
  | mprotect (addr len prot : Nat) (err : Option Errno)
  /-- The call of `exec`. -/
  | exec (entrypoint : Nat)
deriving DecidableEq

/-- One step of an execution: the operation, and the mapping before and after
it. -/
structure Step where
  ev : Event
  pre : Option Region
  post : Option Region

/-- The state of the process as far as the program can change it. -/
structure Proc where
  region : Option Region
  trace : List Step
  stdout : List String

/-- The value a Go panic carries. -/
inductive PanicValue where
  /-- The argument of `panic(err)`. -/
  | err (e : Errno)
  /-- The run-time error "index out of range [index] with length len". -/
  | indexOutOfRange (index len : Nat)
deriving DecidableEq, Repr

/-- How a call ends. -/
inductive Outcome (α : Type) where
  /-- It returns a value. -/
  | ok (a : α)
  /-- It panics. -/
  | panic (v : PanicValue)
  /-- A store hits memory that is not mapped writable. -/
  | fault
  /-- Control never comes back from the generated code. -/
  | noReturn
deriving DecidableEq, Repr

/-- The process before `main` runs: nothing mapped, nothing printed. -/
def Proc.init : Proc := ⟨none, [], []⟩

/-- Record an operation together with the mapping it leaves behind. -/
def Proc.log (p : Proc) (ev : Event) (post : Option Region) : Proc :=
  { p with region := post, trace := p.trace ++ [⟨ev, p.region, post⟩] }

/-- Append a line to standard output. -/
def Proc.print (p : Proc) (s : String) : Proc :=
  { p with stdout := p.stdout ++ [s] }

/-- Sequencing: the second call runs only if the first one returned. -/
def andThen {α β : Type} (r : Proc × Outcome α) (k : α → Proc → Proc × Outcome β) :
    Proc × Outcome β :=
  match r with
  | (p, .ok a) => k a p
  | (p, .panic v) => (p, .panic v)
  | (p, .fault) => (p, .fault)
  | (p, .noReturn) => (p, .noReturn)

/-! ## The `syscall` and `encoding/binary` functions the program calls -/

/-- The function `syscall.Getpagesize`. -/
def Getpagesize (h : Host) : Int := h.pagesize

/-- The function `syscall.Mmap`: a non-positive length is rejected with `EINVAL`
before the kernel is asked; on success the result is a slice of exactly
`length` bytes at the address the kernel chose, and the mapping has the
requested protection. -/
def Mmap (h : Host) (args : MmapArgs) (p : Proc) : Proc × Except Errno Slice :=
  let res : Except Errno Mapping := if args.length ≤ 0 then .error EINVAL else h.mmap args
  match res with
  | .error e => (p.log (.mmap args (.error e)) p.region, .error e)
  | .ok m =>
    (p.log (.mmap args (.ok m.base))
        (some ⟨m.base, args.length.toNat, args.prot, fun i => m.init i % 256⟩),
      .ok ⟨m.base, args.length.toNat⟩)

/-- The function `syscall.Mprotect`: one `mprotect` request for the memory of
the slice; on success a mapping that the slice covers gets the new protection,
on failure nothing changes. -/
def Mprotect (h : Host) (b : Slice) (prot : Nat) (p : Proc) : Proc × Option Errno :=
  let err := h.mprotect b.ptr b.len prot
  let post : Option Region :=
    match err with
    | none => p.region.map fun r =>
        if r.base = b.ptr ∧ r.len = b.len then { r with prot := prot } else r
    | some _ => p.region
  (p.log (.mprotect b.ptr b.len prot err) post, err)

/-- Store one byte at an address: possible only inside the mapping and only
while the mapping is writable. -/
def Region.store (r : Region) (addr v : Nat) : Option Region :=
  if r.base ≤ addr ∧ addr < r.base + r.len ∧ r.prot &&& PROT_WRITE ≠ 0 then
    some { r with mem := fun i => if i = addr - r.base then v else r.mem i }
  else none

/-- Store consecutive bytes starting at an address. -/
def Region.storeBytes (r : Region) (addr : Nat) : List Nat → Option Region
  | [] => some r
  | v :: vs => (r.store addr v).bind fun r1 => r1.storeBytes (addr + 1) vs

/-- The bytes at offsets `off, off + 1, ..., off + n - 1` of a region. -/
def Region.read (r : Region) (off n : Nat) : List Nat :=
  (List.range n).map fun i => r.mem (off + i)

/-- The four bytes `byte(v), byte(v >> 8), byte(v >> 16), byte(v >> 24)` that
`binary.LittleEndian.PutUint32` stores. -/
def leBytes32 (v : Nat) : List Nat :=
  [v % 256, (v >>> 8) % 256, (v >>> 16) % 256, (v >>> 24) % 256]

/-- The function `binary.LittleEndian.Uint32` on four bytes. -/
def Uint32 : List Nat → Nat
  | [b0, b1, b2, b3] => b0 ||| (b1 <<< 8) ||| (b2 <<< 16) ||| (b3 <<< 24)
  | _ => 0

/-- The function `binary.LittleEndian.PutUint32`: the early bounds check
`_ = b[3]`, then the four byte stores. -/
def PutUint32 (b : Slice) (v : Nat) (p : Proc) : Proc × Outcome Unit :=
  if b.len ≤ 3 then (p, .panic (.indexOutOfRange 3 b.len))
  else
    match p.region.bind fun r => r.storeBytes b.ptr (leBytes32 v) with
    | none => (p, .fault)
    | some r1 => (p.log (.write b.ptr (leBytes32 v)) (some r1), .ok ())

/-- The expression `uintptr(unsafe.Pointer(&b[i]))`: the index is checked against
the length of the slice. -/
def Slice.addrOf (b : Slice) (i : Nat) (p : Proc) : Proc × Outcome Nat :=
  if i < b.len then (p, .ok (b.ptr + i)) else (p, .panic (.indexOutOfRange i b.len))

/-- The text `%#x` prints for an address. -/
def hex (n : Nat) : String := "0x" ++ String.mk (Nat.toDigits 16 n)

/-! ## The program -/

/-- The instruction word `main` installs. -/
def machineCode : Nat := 0xd65f03c0

/-- The function `mustAllocateByMMap` of `main.go`.  The length
`syscall.Getpagesize()*10` is a Go `int` product; `goInt_tenPages` below shows
that it never wraps for a page size the host can report, so the product is
written without the wrap. -/
def mustAllocateByMMap (h : Host) (p : Proc) : Proc × Outcome Slice :=
  match Mmap h
      ⟨-1, 0, Getpagesize h * 10, PROT_READ ||| PROT_WRITE, MAP_ANON ||| MAP_PRIVATE⟩
      p with
  | (p1, .error err) => (p1, .panic (.err err))
  | (p1, .ok machineCodes) => (p1, .ok machineCodes)

/-- The function `mustMarkAsExecutable` of `main.go`. -/
def mustMarkAsExecutable (h : Host) (machineCodes : Slice) (p : Proc) : Proc × Outcome Unit :=
  match Mprotect h machineCodes (PROT_READ ||| PROT_EXEC) p with
  | (p1, some err) => (p1, .panic (.err err))
  | (p1, none) => (p1, .ok ())

/-- The call `exec(entrypoint)` as `main` sees it: control goes to the address and
either comes back or does not.  The body of `exec` is assembly outside the
embedded source, so its behaviour is a parameter of the host. -/
def exec (h : Host) (entrypoint : Nat) (p : Proc) : Proc × Outcome Unit :=
  (p.log (.exec entrypoint) p.region,
    if h.execReturns entrypoint p.region then .ok () else .noReturn)

/-- The function `main` of `main.go`. -/
def main (h : Host) : Proc × Outcome Unit :=
  -- 1. allocate
  andThen (mustAllocateByMMap h Proc.init) fun machineCodeBuf p1 =>
  -- 2. write the machine code
  andThen (PutUint32 machineCodeBuf machineCode p1) fun _ p2 =>
  -- 3. mark the region executable
  andThen (mustMarkAsExecutable h machineCodeBuf p2) fun _ p3 =>
  -- 4. execute
  andThen (machineCodeBuf.addrOf 0 p3) fun entrypoint p4 =>
  andThen (exec h entrypoint (p4.print ("entrypoint: " ++ hex entrypoint ++ "\n"))) fun _ p5 =>
  (p5.print "ok\n", .ok ())

/-! ## Vocabulary for the statements -/

/-- The request `mustAllocateByMMap` passes to `syscall.Mmap`. -/
def allocArgs (h : Host) : MmapArgs :=
  ⟨-1, 0, Getpagesize h * 10, PROT_READ ||| PROT_WRITE, MAP_ANON ||| MAP_PRIVATE⟩

/-- The mapping as the kernel creates it for `mustAllocateByMMap`. -/
def freshRegion (h : Host) (m : Mapping) : Region :=
  ⟨m.base, 10 * h.pagesize, PROT_READ ||| PROT_WRITE, fun i => m.init i % 256⟩

/-- A region after four bytes were stored at its start. -/
def Region.put4 (r : Region) (b0 b1 b2 b3 : Nat) : Region :=
  { r with mem := fun i =>
      if i = 3 then b3 else if i = 2 then b2 else if i = 1 then b1 else if i = 0 then b0
      else r.mem i }

/-- The mapping after the write step of `main`. -/
def writtenRegion (h : Host) (m : Mapping) : Region :=
  (freshRegion h m).put4 0xC0 0x03 0x5F 0xD6

/-- The mapping after the protection flip of `main`. -/
def flippedRegion (h : Host) (m : Mapping) : Region :=
  { writtenRegion h m with prot := PROT_READ ||| PROT_EXEC }

/-- The successful allocation step of `main`. -/
def allocStep (h : Host) (m : Mapping) : Step :=
  ⟨.mmap (allocArgs h) (.ok m.base), none, some (freshRegion h m)⟩

/-- The failed allocation step of `main`. -/
def allocFailStep (h : Host) (e : Errno) : Step :=
  ⟨.mmap (allocArgs h) (.error e), none, none⟩

/-- The write step of `main`. -/
def writeStep (h : Host) (m : Mapping) : Step :=
  ⟨.write m.base (leBytes32 machineCode), some (freshRegion h m), some (writtenRegion h m)⟩

/-- The successful protection flip of `main`. -/
def flipStep (h : Host) (m : Mapping) : Step :=
  ⟨.mprotect m.base (10 * h.pagesize) (PROT_READ ||| PROT_EXEC) none,
    some (writtenRegion h m), some (flippedRegion h m)⟩

/-- The refused protection flip of `main`. -/
def flipFailStep (h : Host) (m : Mapping) (e : Errno) : Step :=
  ⟨.mprotect m.base (10 * h.pagesize) (PROT_READ ||| PROT_EXEC) (some e),
    some (writtenRegion h m), some (writtenRegion h m)⟩

/-- The control transfer of `main`. -/
def execStep (h : Host) (m : Mapping) : Step :=
  ⟨.exec m.base, some (flippedRegion h m), some (flippedRegion h m)⟩

/-- A region is writable when its protection has the write bit. -/
def Region.canWrite (r : Region) : Bool := r.prot &&& PROT_WRITE != 0

/-- A region is executable when its protection has the execute bit. -/
def Region.canExec (r : Region) : Bool := r.prot &&& PROT_EXEC != 0

/-- The step is a successful protection change. -/
def Step.isFlip (s : Step) : Bool :=
  match s.ev with
  | .mprotect _ _ _ none => true
  | _ => false

/-- The step is a successful allocation. -/
def Step.isAlloc (s : Step) : Bool :=
  match s.ev with
  | .mmap _ (.ok _) => true
  | _ => false

/-- The step stores bytes into the region. -/
def Step.isWrite (s : Step) : Bool :=
  match s.ev with
  | .write _ _ => true
  | _ => false

/-- The step calls `exec`. -/
def Step.isExec (s : Step) : Bool :=
  match s.ev with
  | .exec _ => true
  | _ => false

/-- The state `Released` of the lifecycle: the region was allocated and is no
longer mapped. -/
def Proc.released (p : Proc) : Bool := p.region.isNone && p.trace.any Step.isAlloc

/-- The mapping the kernel of the demonstration hosts hands out: zero-filled,
at address `0x10000`. -/
def demoMapping : Mapping := ⟨0x10000, fun _ => 0⟩

/-- A host with 4 KiB pages on which every request succeeds and the generated
code returns. -/
def demoHost : Host :=
  ⟨4096, by decide, fun _ => .ok demoMapping, fun _ _ _ => none, fun _ _ => true⟩

/-- A host with 4 KiB pages whose kernel refuses to make memory executable
(`EACCES`). -/
def hardenedHost : Host :=
  ⟨4096, by decide, fun _ => .ok demoMapping, fun _ _ _ => some 13, fun _ _ => true⟩

/-- A host with 4 KiB pages that is out of memory (`ENOMEM`). -/
def exhaustedHost : Host :=
  ⟨4096, by decide, fun _ => .error 12, fun _ _ _ => none, fun _ _ => true⟩

/-! ## The processor, as far as the control transfer needs it -/

namespace A64

/-- The registers of one thread: `X0` to `X30`, the stack pointer and the
program counter. -/
structure Cpu where
  x : Nat → Nat
  sp : Nat
  pc : Nat

/-- The instructions the model decodes. -/
inductive Instr where
  /-- Return to the address in `Xn`. -/
  | ret (n : Nat)
  /-- No operation. -/
  | nop
  /-- Move a 16-bit immediate into `Xd`. -/
  | movz (d imm : Nat)
deriving DecidableEq, Repr

/-- The A64 encoding of `RET Xn`: `1101011 0010 11111 000000 Rn 00000`. -/
def encodeRET (n : Nat) : Nat := 0xD65F0000 + 32 * n

/-- Decode one 32-bit instruction word: `NOP` is `0xD503201F`, `RET Xn` has
bits 31..10 equal to those of `0xD65F0000` and bits 4..0 zero, `MOVZ Xd, #imm`
has bits 31..21 equal to those of `0xD2800000`. -/
def decode (w : Nat) : Option Instr :=
  if w = 0xD503201F then some .nop
  else if w / 1024 = 0xD65F0000 / 1024 ∧ w % 32 = 0 then some (.ret (w / 32 % 32))
  else if w / 2097152 = 0xD2800000 / 2097152 then some (.movz (w % 32) (w / 32 % 65536))
  else none

/-- Read general register `n`; number 31 reads as zero. -/
def Cpu.reg (c : Cpu) (n : Nat) : Nat := if n = 31 then 0 else c.x n

/-- Write general register `n`; a write to number 31 is discarded. -/
def Cpu.setReg (c : Cpu) (n v : Nat) : Cpu :=
  if n = 31 then c else { c with x := fun k => if k = n then v else c.x k }

/-- The little-endian instruction word at an address. -/
def fetch (mem : Nat → Nat) (addr : Nat) : Nat :=
  Uint32 [mem addr, mem (addr + 1), mem (addr + 2), mem (addr + 3)]

/-- Execute the instruction at the program counter; `none` when the word there
is not an instruction of the model. -/
def step (mem : Nat → Nat) (c : Cpu) : Option Cpu :=
  match decode (fetch mem c.pc) with
  | some (.ret n) => some { c with pc := c.reg n }
  | some .nop => some { c with pc := c.pc + 4 }
  | some (.movz d imm) => some { c.setReg d imm with pc := c.pc + 4 }
  | none => none

/-- Run until the program counter reaches the return address, for at most
`fuel` instructions. -/
def runUntil (mem : Nat → Nat) (ret : Nat) : Nat → Cpu → Option Cpu
  | 0, c => if c.pc = ret then some c else none
  | fuel + 1, c => if c.pc = ret then some c else (step mem c).bind (runUntil mem ret fuel)

/-- Modelled from the spec: the body of `exec` is the assembly file
`main_arm64.s`, of which the source here has only the declaration.  Spec §4.3
step B: the primitive "saves the minimum call-preserving state required by the
host calling convention" (the link register `X30`), "jumps to that address as
if it were an ordinary function entry" (a branch with link: `X30` receives the
address after the branch), expects "the generated code to eventually return",
and on return the saved state "is restored". -/
def exec (mem : Nat → Nat) (fuel : Nat) (entrypoint : Nat) (c : Cpu) : Option Cpu :=
  let saved := c.x 30
  let ret := c.pc + 4
  (runUntil mem ret fuel { c with x := fun k => if k = 30 then ret else c.x k, pc := entrypoint }).map
    fun c1 => { c1 with x := fun k => if k = 30 then saved else c1.x k }

/-- What the caller of `exec` can rely on across a call under the procedure
call standard: the callee-saved registers `X19` to `X29`, the link register,
and the stack pointer. -/
def callerView (c : Cpu) : List Nat × Nat :=
  ((List.range 12).map fun i => c.x (19 + i), c.sp)

/-- The code installed at `entry` respects the calling convention and ends in
a return: entered with any register contents, it reaches the address it found
in the link register within `fuel` instructions, with the stack pointer and
the callee-saved registers `X19` to `X29` as they were on entry. -/
def ConventionRespecting (mem : Nat → Nat) (entry fuel : Nat) : Prop :=
  ∀ c : Cpu, c.pc = entry →
    ∃ c1, runUntil mem (c.x 30) fuel c = some c1 ∧ c1.sp = c.sp ∧
      ∀ n, 19 ≤ n → n ≤ 29 → c1.x n = c.x n

/-- The memory a region presents to the processor. -/
def regionMemory (r : Region) : Nat → Nat :=
  fun a => if r.base ≤ a ∧ a < r.base + r.len then r.mem (a - r.base) else 0

/-- A thread about to make the control transfer: `X19` to `X30` hold 119 to
130, the stack pointer is `0x7000`, the branch is at `0x4000`. -/
def demoCpu : Cpu := ⟨fun k => 100 + k, 0x7000, 0x4000⟩

end A64

/-! ## Basic facts about the embedding -/

/-- Ten pages fit a Go `int`: the product in the source does not wrap. -/
theorem goInt_tenPages (h : Host) : goInt (Getpagesize h * 10) = Getpagesize h * 10 := by
  have hle := h.pagesize_le
  unfold maxPhysPageSize at hle
  unfold goInt Getpagesize
  omega

theorem allocArgs_length (h : Host) : (allocArgs h).length = 10 * (h.pagesize : Int) := by
  show (h.pagesize : Int) * 10 = _
  omega

theorem Mmap_ok_eq (h : Host) (args : MmapArgs) (p : Proc) (m : Mapping)
    (hlen : 0 < args.length) (hm : h.mmap args = .ok m) :
    Mmap h args p =
      (p.log (.mmap args (.ok m.base))
        (some ⟨m.base, args.length.toNat, args.prot, fun i => m.init i % 256⟩),
       .ok ⟨m.base, args.length.toNat⟩) := by
  simp only [Mmap, not_le.mpr hlen, if_false, hm]

theorem Mmap_err_eq (h : Host) (args : MmapArgs) (p : Proc) (e : Errno)
    (hlen : 0 < args.length) (hm : h.mmap args = .error e) :
    Mmap h args p = (p.log (.mmap args (.error e)) p.region, .error e) := by
  simp only [Mmap, not_le.mpr hlen, if_false, hm]

theorem Mmap_zero_eq (h : Host) (args : MmapArgs) (p : Proc) (hlen : args.length ≤ 0) :
    Mmap h args p = (p.log (.mmap args (.error EINVAL)) p.region, .error EINVAL) := by
  simp only [Mmap, hlen, if_true]

theorem mustAllocateByMMap_def (h : Host) (p : Proc) :
    mustAllocateByMMap h p =
      match Mmap h (allocArgs h) p with
      | (p1, .error err) => (p1, .panic (.err err))
      | (p1, .ok machineCodes) => (p1, .ok machineCodes) := rfl

theorem mustAllocateByMMap_ok_eq (h : Host) (p : Proc) (m : Mapping) (hpos : 0 < h.pagesize)
    (hm : h.mmap (allocArgs h) = .ok m) :
    mustAllocateByMMap h p =
      (p.log (.mmap (allocArgs h) (.ok m.base)) (some (freshRegion h m)),
       .ok ⟨m.base, 10 * h.pagesize⟩) := by
  have hl := allocArgs_length h
  have hnat : (allocArgs h).length.toNat = 10 * h.pagesize := by rw [hl]; omega
  rw [mustAllocateByMMap_def, Mmap_ok_eq h _ p m (by rw [hl]; omega) hm, hnat]
  rfl

theorem mustAllocateByMMap_err_eq (h : Host) (p : Proc) (e : Errno) (hpos : 0 < h.pagesize)
    (hm : h.mmap (allocArgs h) = .error e) :
    mustAllocateByMMap h p =
      (p.log (.mmap (allocArgs h) (.error e)) p.region, .panic (.err e)) := by
  have hl := allocArgs_length h
  rw [mustAllocateByMMap_def, Mmap_err_eq h _ p e (by rw [hl]; omega) hm]

theorem mustAllocateByMMap_zero_eq (h : Host) (p : Proc) (hpos : h.pagesize = 0) :
    mustAllocateByMMap h p =
      (p.log (.mmap (allocArgs h) (.error EINVAL)) p.region, .panic (.err EINVAL)) := by
  have hl := allocArgs_length h
  rw [mustAllocateByMMap_def, Mmap_zero_eq h _ p (by rw [hl]; omega)]

theorem storeBytes_machineCode (r : Region) (hlen : 4 ≤ r.len) (hw : r.prot &&& PROT_WRITE ≠ 0) :
    r.storeBytes r.base (leBytes32 machineCode) = some (r.put4 0xC0 0x03 0x5F 0xD6) := by
  have hb : leBytes32 machineCode = [0xC0, 0x03, 0x5F, 0xD6] := by decide
  rw [hb]
  simp only [Region.storeBytes, Region.store, Region.put4]
  have h0 : r.base ≤ r.base ∧ r.base < r.base + r.len ∧ r.prot &&& PROT_WRITE ≠ 0 :=
    ⟨le_refl _, by omega, hw⟩
  have h1 : r.base ≤ r.base + 1 ∧ r.base + 1 < r.base + r.len ∧ r.prot &&& PROT_WRITE ≠ 0 :=
    ⟨by omega, by omega, hw⟩
  have h2 : r.base ≤ r.base + 1 + 1 ∧ r.base + 1 + 1 < r.base + r.len ∧
      r.prot &&& PROT_WRITE ≠ 0 := ⟨by omega, by omega, hw⟩
  have h3 : r.base ≤ r.base + 1 + 1 + 1 ∧ r.base + 1 + 1 + 1 < r.base + r.len ∧
      r.prot &&& PROT_WRITE ≠ 0 := ⟨by omega, by omega, hw⟩
  simp only [if_pos h0, if_pos h1, if_pos h2, if_pos h3, Option.some_bind, Option.bind]
  congr 2
  funext i
  have e0 : r.base - r.base = 0 := by omega
  have e1 : r.base + 1 - r.base = 1 := by omega
  have e2 : r.base + 1 + 1 - r.base = 2 := by omega
  have e3 : r.base + 1 + 1 + 1 - r.base = 3 := by omega
  simp only [e0, e1, e2, e3]

theorem PutUint32_machineCode (p : Proc) (r : Region) (hr : p.region = some r)
    (hlen : 4 ≤ r.len) (hw : r.prot &&& PROT_WRITE ≠ 0) :
    PutUint32 ⟨r.base, r.len⟩ machineCode p =
      (p.log (.write r.base (leBytes32 machineCode)) (some (r.put4 0xC0 0x03 0x5F 0xD6)),
        .ok ()) := by
  have hn : ¬ r.len ≤ 3 := by omega
  simp only [PutUint32, hn, if_false, hr, Option.some_bind, storeBytes_machineCode r hlen hw]

theorem freshRegion_canWrite (h : Host) (m : Mapping) :
    (freshRegion h m).prot &&& PROT_WRITE ≠ 0 := by
  show (PROT_READ ||| PROT_WRITE) &&& PROT_WRITE ≠ 0
  decide

theorem mustMarkAsExecutable_ok_eq (h : Host) (p : Proc) (r : Region) (hr : p.region = some r)
    (hp : h.mprotect r.base r.len (PROT_READ ||| PROT_EXEC) = none) :
    mustMarkAsExecutable h ⟨r.base, r.len⟩ p =
      (p.log (.mprotect r.base r.len (PROT_READ ||| PROT_EXEC) none)
        (some { r with prot := PROT_READ ||| PROT_EXEC }), .ok ()) := by
  simp only [mustMarkAsExecutable, Mprotect, hp, hr, Option.map_some', and_self, if_true]

theorem mustMarkAsExecutable_err_eq (h : Host) (p : Proc) (b : Slice) (e : Errno)
    (hp : h.mprotect b.ptr b.len (PROT_READ ||| PROT_EXEC) = some e) :
    mustMarkAsExecutable h b p =
      (p.log (.mprotect b.ptr b.len (PROT_READ ||| PROT_EXEC) (some e)) p.region,
        .panic (.err e)) := by
  simp only [mustMarkAsExecutable, Mprotect, hp]

theorem main_zero (h : Host) (h0 : h.pagesize = 0) :
    main h = (Proc.init.log (.mmap (allocArgs h) (.error EINVAL)) none, .panic (.err EINVAL)) := by
  simp only [main, mustAllocateByMMap_zero_eq h _ h0, andThen]
  rfl

theorem main_allocErr (h : Host) (e : Errno) (hpos : 0 < h.pagesize)
    (hm : h.mmap (allocArgs h) = .error e) :
    main h = (Proc.init.log (.mmap (allocArgs h) (.error e)) none, .panic (.err e)) := by
  simp only [main, mustAllocateByMMap_err_eq h _ e hpos hm, andThen]
  rfl

theorem main_upToFlip (h : Host) (m : Mapping) (hpos : 0 < h.pagesize)
    (hm : h.mmap (allocArgs h) = .ok m) :
    main h =
      andThen (mustMarkAsExecutable h ⟨m.base, 10 * h.pagesize⟩
        ⟨some (writtenRegion h m), [allocStep h m, writeStep h m], []⟩) fun _ p3 =>
      andThen (Slice.addrOf ⟨m.base, 10 * h.pagesize⟩ 0 p3) fun entrypoint p4 =>
      andThen (exec h entrypoint (p4.print ("entrypoint: " ++ hex entrypoint ++ "\n")))
        fun _ p5 => (p5.print "ok\n", .ok ()) := by
  have hw := PutUint32_machineCode
    (Proc.init.log (.mmap (allocArgs h) (.ok m.base)) (some (freshRegion h m)))
    (freshRegion h m) rfl (by show 4 ≤ 10 * h.pagesize; omega) (freshRegion_canWrite h m)
  have hb : (freshRegion h m).base = m.base := rfl
  have hl : (freshRegion h m).len = 10 * h.pagesize := rfl
  rw [hb, hl] at hw
  simp only [main, mustAllocateByMMap_ok_eq h _ m hpos hm, andThen, hw]
  rfl

theorem main_flipErr (h : Host) (m : Mapping) (e : Errno) (hpos : 0 < h.pagesize)
    (hm : h.mmap (allocArgs h) = .ok m)
    (hp : h.mprotect m.base (10 * h.pagesize) (PROT_READ ||| PROT_EXEC) = some e) :
    main h =
      (⟨some (writtenRegion h m), [allocStep h m, writeStep h m, flipFailStep h m e], []⟩,
        .panic (.err e)) := by
  rw [main_upToFlip h m hpos hm, mustMarkAsExecutable_err_eq h _ ⟨m.base, 10 * h.pagesize⟩ e hp]
  rfl

theorem main_noReturn (h : Host) (m : Mapping) (hpos : 0 < h.pagesize)
    (hm : h.mmap (allocArgs h) = .ok m)
    (hp : h.mprotect m.base (10 * h.pagesize) (PROT_READ ||| PROT_EXEC) = none)
    (hx : h.execReturns m.base (some (flippedRegion h m)) = false) :
    main h =
      (⟨some (flippedRegion h m),
          [allocStep h m, writeStep h m, flipStep h m, execStep h m],
          ["entrypoint: " ++ hex m.base ++ "\n"]⟩, .noReturn) := by
  have hf : mustMarkAsExecutable h ⟨m.base, 10 * h.pagesize⟩
      ⟨some (writtenRegion h m), [allocStep h m, writeStep h m], []⟩ =
      (⟨some (flippedRegion h m), [allocStep h m, writeStep h m, flipStep h m], []⟩, .ok ()) :=
    mustMarkAsExecutable_ok_eq h
      ⟨some (writtenRegion h m), [allocStep h m, writeStep h m], []⟩ (writtenRegion h m) rfl hp
  have h0 : 0 < 10 * h.pagesize := by omega
  rw [main_upToFlip h m hpos hm, hf]
  simp only [andThen, Slice.addrOf, h0, if_true, exec, Nat.add_zero, Proc.print, Proc.log, hx]
  rfl

theorem main_ok (h : Host) (m : Mapping) (hpos : 0 < h.pagesize)
    (hm : h.mmap (allocArgs h) = .ok m)
    (hp : h.mprotect m.base (10 * h.pagesize) (PROT_READ ||| PROT_EXEC) = none)
    (hx : h.execReturns m.base (some (flippedRegion h m)) = true) :
    main h =
      (⟨some (flippedRegion h m),
          [allocStep h m, writeStep h m, flipStep h m, execStep h m],
          ["entrypoint: " ++ hex m.base ++ "\n", "ok\n"]⟩, .ok ()) := by
  have hf : mustMarkAsExecutable h ⟨m.base, 10 * h.pagesize⟩
      ⟨some (writtenRegion h m), [allocStep h m, writeStep h m], []⟩ =
      (⟨some (flippedRegion h m), [allocStep h m, writeStep h m, flipStep h m], []⟩, .ok ()) :=
    mustMarkAsExecutable_ok_eq h
      ⟨some (writtenRegion h m), [allocStep h m, writeStep h m], []⟩ (writtenRegion h m) rfl hp
  have h0 : 0 < 10 * h.pagesize := by omega
  rw [main_upToFlip h m hpos hm, hf]
  simp only [andThen, Slice.addrOf, h0, if_true, exec, Nat.add_zero, Proc.print, Proc.log, hx]
  rfl

/-- The five ways `main` can run, by the answers of the host. -/
theorem main_cases (h : Host) :
    (∃ e, (h.pagesize = 0 ∧ e = EINVAL ∨ 0 < h.pagesize ∧ h.mmap (allocArgs h) = .error e) ∧
        main h = (⟨none, [allocFailStep h e], []⟩, .panic (.err e))) ∨
    (∃ m e, 0 < h.pagesize ∧ h.mmap (allocArgs h) = .ok m ∧
        h.mprotect m.base (10 * h.pagesize) (PROT_READ ||| PROT_EXEC) = some e ∧
        main h = (⟨some (writtenRegion h m),
          [allocStep h m, writeStep h m, flipFailStep h m e], []⟩, .panic (.err e))) ∨
    (∃ m, 0 < h.pagesize ∧ h.mmap (allocArgs h) = .ok m ∧
        h.mprotect m.base (10 * h.pagesize) (PROT_READ ||| PROT_EXEC) = none ∧
        h.execReturns m.base (some (flippedRegion h m)) = false ∧
        main h = (⟨some (flippedRegion h m),
          [allocStep h m, writeStep h m, flipStep h m, execStep h m],
          ["entrypoint: " ++ hex m.base ++ "\n"]⟩, .noReturn)) ∨
    (∃ m, 0 < h.pagesize ∧ h.mmap (allocArgs h) = .ok m ∧
        h.mprotect m.base (10 * h.pagesize) (PROT_READ ||| PROT_EXEC) = none ∧
        h.execReturns m.base (some (flippedRegion h m)) = true ∧
        main h = (⟨some (flippedRegion h m),
          [allocStep h m, writeStep h m, flipStep h m, execStep h m],
          ["entrypoint: " ++ hex m.base ++ "\n", "ok\n"]⟩, .ok ())) := by
  rcases Nat.eq_zero_or_pos h.pagesize with h0 | hpos
  · exact Or.inl ⟨EINVAL, Or.inl ⟨h0, rfl⟩, main_zero h h0⟩
  · cases hm : h.mmap (allocArgs h) with
    | error e => exact Or.inl ⟨e, Or.inr ⟨hpos, rfl⟩, main_allocErr h e hpos hm⟩
    | ok m =>
      cases hp : h.mprotect m.base (10 * h.pagesize) (PROT_READ ||| PROT_EXEC) with
      | some e => exact Or.inr (Or.inl ⟨m, e, hpos, rfl, hp, main_flipErr h m e hpos hm hp⟩)
      | none =>
        cases hx : h.execReturns m.base (some (flippedRegion h m)) with
        | false =>
          exact Or.inr (Or.inr (Or.inl ⟨m, hpos, rfl, hp, hx, main_noReturn h m hpos hm hp hx⟩))
        | true =>
          exact Or.inr (Or.inr (Or.inr ⟨m, hpos, rfl, hp, hx, main_ok h m hpos hm hp hx⟩))

/-- C1 (W^X): at every step of every execution of `main`, the region, where
mapped, never has write and execute permission together, neither before nor
after the step; its protection after the step is read+write as long as no
successful `Mprotect` has happened and read+execute from the flip on; and the
region is unmapped after a step only when that step is the failed allocation. -/
theorem main_writeXorExecute (h : Host) (i : Nat) (s : Step)
    (hs : (main h).1.trace[i]? = some s) :
    (∀ r, s.pre = some r → ¬ (r.canWrite = true ∧ r.canExec = true)) ∧
    (∀ r, s.post = some r → ¬ (r.canWrite = true ∧ r.canExec = true)) ∧
    (∀ r, s.post = some r →
      r.prot = if ((main h).1.trace.take (i + 1)).any Step.isFlip
        then PROT_READ ||| PROT_EXEC else PROT_READ ||| PROT_WRITE) ∧
    (s.post = none → ∃ args e, s.ev = .mmap args (.error e)) := by
  have hrw : ∀ r : Region, r.prot = PROT_READ ||| PROT_WRITE →
      ¬ (r.canWrite = true ∧ r.canExec = true) := by
    intro r hr
    simp only [Region.canWrite, Region.canExec, hr]
    decide
  have hrx : ∀ r : Region, r.prot = PROT_READ ||| PROT_EXEC →
      ¬ (r.canWrite = true ∧ r.canExec = true) := by
    intro r hr
    simp only [Region.canWrite, Region.canExec, hr]
    decide
  rcases main_cases h with ⟨e, _, hmain⟩ | ⟨m, e, _, _, _, hmain⟩ | ⟨m, _, _, _, _, hmain⟩ |
    ⟨m, _, _, _, _, hmain⟩ <;> rw [hmain] at hs ⊢ <;> simp only at hs ⊢
  · rcases i with _ | i
    · simp at hs
      subst hs
      simp [allocFailStep]
    · simp at hs
  · rcases i with _ | _ | _ | i
    · simp at hs
      subst hs
      refine ⟨by simp [allocStep], fun r hr => hrw r ?_, fun r hr => ?_, by simp [allocStep]⟩
      all_goals
        simp only [allocStep, Option.some.injEq] at hr
        subst hr
        simp [freshRegion, Step.isFlip, allocStep]
    · simp at hs
      subst hs
      refine ⟨fun r hr => hrw r ?_, fun r hr => hrw r ?_, fun r hr => ?_, by simp [writeStep]⟩
      all_goals
        simp only [writeStep, Option.some.injEq] at hr
        subst hr
        simp [freshRegion, writtenRegion, Region.put4, Step.isFlip, allocStep, writeStep]
    · simp at hs
      subst hs
      refine ⟨fun r hr => hrw r ?_, fun r hr => hrw r ?_, fun r hr => ?_,
        by simp [flipFailStep]⟩
      all_goals
        simp only [flipFailStep, Option.some.injEq] at hr
        subst hr
        simp [freshRegion, writtenRegion, Region.put4, Step.isFlip, allocStep, writeStep,
          flipFailStep]
    · simp at hs
  all_goals
    rcases i with _ | _ | _ | _ | i
    · simp at hs
      subst hs
      refine ⟨by simp [allocStep], fun r hr => hrw r ?_, fun r hr => ?_, by simp [allocStep]⟩
      all_goals
        simp only [allocStep, Option.some.injEq] at hr
        subst hr
        simp [freshRegion, Step.isFlip, allocStep]
    · simp at hs
      subst hs
      refine ⟨fun r hr => hrw r ?_, fun r hr => hrw r ?_, fun r hr => ?_, by simp [writeStep]⟩
      all_goals
        simp only [writeStep, Option.some.injEq] at hr
        subst hr
        simp [freshRegion, writtenRegion, Region.put4, Step.isFlip, allocStep, writeStep]
    · simp at hs
      subst hs
      refine ⟨fun r hr => hrw r ?_, fun r hr => hrx r ?_, fun r hr => ?_, by simp [flipStep]⟩
      all_goals
        simp only [flipStep, Option.some.injEq] at hr
        subst hr
        simp [freshRegion, writtenRegion, flippedRegion, Region.put4, Step.isFlip, allocStep,
          writeStep, flipStep]
    · simp at hs
      subst hs
      refine ⟨fun r hr => hrx r ?_, fun r hr => hrx r ?_, fun r hr => ?_, by simp [execStep]⟩
      all_goals
        simp only [execStep, Option.some.injEq] at hr
        subst hr
        simp [freshRegion, writtenRegion, flippedRegion, Region.put4, Step.isFlip, allocStep,
          writeStep, flipStep, execStep]
    · simp at hs

theorem main_demoHost :
    main demoHost =
      (⟨some (flippedRegion demoHost demoMapping),
          [allocStep demoHost demoMapping, writeStep demoHost demoMapping,
            flipStep demoHost demoMapping, execStep demoHost demoMapping],
          ["entrypoint: " ++ hex demoMapping.base ++ "\n", "ok\n"]⟩, .ok ()) :=
  main_ok demoHost demoMapping (by decide) rfl rfl rfl

theorem main_hardenedHost :
    main hardenedHost =
      (⟨some (writtenRegion hardenedHost demoMapping),
          [allocStep hardenedHost demoMapping, writeStep hardenedHost demoMapping,
            flipFailStep hardenedHost demoMapping 13], []⟩, .panic (.err 13)) :=
  main_flipErr hardenedHost demoMapping 13 (by decide) rfl rfl

theorem main_exhaustedHost :
    main exhaustedHost = (⟨none, [allocFailStep exhaustedHost 12], []⟩, .panic (.err 12)) :=
  main_allocErr exhaustedHost 12 (by decide) rfl

/-- Witness for C1: on the demonstration host the third step of `main` is the
protection flip, and the region it leaves is not writable and executable at
once. -/
theorem main_writeXorExecute_witness :
    (main demoHost).1.trace[2]? = some (flipStep demoHost demoMapping) ∧
    ∀ r, (flipStep demoHost demoMapping).post = some r →
      ¬ (r.canWrite = true ∧ r.canExec = true) :=
  have hs : (main demoHost).1.trace[2]? = some (flipStep demoHost demoMapping) := by
    rw [main_demoHost]; rfl
  ⟨hs, (main_writeXorExecute demoHost 2 (flipStep demoHost demoMapping) hs).2.1⟩

/-- C2: for every page size `P > 0`, `mustAllocateByMMap` makes exactly one
`Mmap` request, for `10 * P` bytes, not backed by a file (`fd = -1`), anonymous
and private, with read and write permission and without execute permission; and
when the kernel grants it, the function returns the slice of exactly `10 * P`
bytes at the address the kernel chose, backed by a region of that length and
protection, so the returned length is positive and a multiple of `P`. -/
theorem mustAllocateByMMap_tenPages (h : Host) (P : Nat) (hP : h.pagesize = P) (hpos : 0 < P)
    (p : Proc) :
    (∃ res, (mustAllocateByMMap h p).1.trace =
        p.trace ++ [⟨.mmap (allocArgs h) res, p.region, (mustAllocateByMMap h p).1.region⟩]) ∧
    (allocArgs h).length = 10 * P ∧ (allocArgs h).fd = -1 ∧ (allocArgs h).offset = 0 ∧
    (allocArgs h).flags &&& MAP_ANON = MAP_ANON ∧
    (allocArgs h).flags &&& MAP_PRIVATE = MAP_PRIVATE ∧
    (allocArgs h).prot &&& PROT_READ = PROT_READ ∧
    (allocArgs h).prot &&& PROT_WRITE = PROT_WRITE ∧
    (allocArgs h).prot &&& PROT_EXEC = 0 ∧
    (∀ m, h.mmap (allocArgs h) = .ok m →
      mustAllocateByMMap h p =
        (p.log (.mmap (allocArgs h) (.ok m.base))
          (some ⟨m.base, 10 * P, PROT_READ ||| PROT_WRITE, fun i => m.init i % 256⟩),
         .ok ⟨m.base, 10 * P⟩) ∧
      0 < (Slice.mk m.base (10 * P)).len ∧ P ∣ (Slice.mk m.base (10 * P)).len) := by
  subst hP
  have hflags : (allocArgs h).flags = MAP_ANON ||| MAP_PRIVATE := rfl
  have hprot : (allocArgs h).prot = PROT_READ ||| PROT_WRITE := rfl
  rw [hflags, hprot]
  refine ⟨?_, ?_, rfl, rfl, by decide, by decide, by decide, by decide, by decide, ?_⟩
  · cases hm : h.mmap (allocArgs h) with
    | error e =>
      rw [mustAllocateByMMap_err_eq h p e hpos hm]
      exact ⟨_, rfl⟩
    | ok m =>
      rw [mustAllocateByMMap_ok_eq h p m hpos hm]
      exact ⟨_, rfl⟩
  · rw [allocArgs_length]
  · intro m hm
    refine ⟨mustAllocateByMMap_ok_eq h p m hpos hm, ?_, ?_⟩
    · show 0 < 10 * h.pagesize
      omega
    · exact Dvd.intro_left 10 rfl

/-- Witness for C2: 4 KiB pages, the kernel grants the request. -/
theorem mustAllocateByMMap_tenPages_witness :
    demoHost.pagesize = 4096 ∧ 0 < 4096 ∧
    (mustAllocateByMMap demoHost Proc.init).2 = .ok ⟨0x10000, 40960⟩ :=
  ⟨rfl, by decide,
    congrArg Prod.snd
      ((mustAllocateByMMap_tenPages demoHost 4096 rfl (by decide) Proc.init).2.2.2.2.2.2.2.2.2
        demoMapping rfl).1⟩

/-- C3: on every writable region of length at least 4, the write step of
`main` (`PutUint32` of `0xd65f03c0` through the slice that covers the region)
succeeds; afterwards bytes `[0, 4)` read back as `C0 03 5F D6`, they decode as
a little-endian `uint32` to `0xd65f03c0`, every byte at an index from 4 on is
what it was before, and the region keeps its address, length and protection. -/
theorem PutUint32_readBack (p : Proc) (r : Region) (hr : p.region = some r)
    (hw : r.canWrite = true) (hlen : 4 ≤ r.len) :
    ∃ r1, PutUint32 ⟨r.base, r.len⟩ machineCode p =
        (p.log (.write r.base [0xC0, 0x03, 0x5F, 0xD6]) (some r1), .ok ()) ∧
      r1.read 0 4 = [0xC0, 0x03, 0x5F, 0xD6] ∧
      Uint32 (r1.read 0 4) = 0xd65f03c0 ∧
      (∀ i, 4 ≤ i → r1.mem i = r.mem i) ∧
      r1.base = r.base ∧ r1.len = r.len ∧ r1.prot = r.prot := by
  have hw1 : r.prot &&& PROT_WRITE ≠ 0 := by
    simpa [Region.canWrite] using hw
  have hread : (r.put4 0xC0 0x03 0x5F 0xD6).read 0 4 = [0xC0, 0x03, 0x5F, 0xD6] := by
    simp [Region.read, Region.put4, List.range_succ]
  refine ⟨r.put4 0xC0 0x03 0x5F 0xD6, PutUint32_machineCode p r hr hlen hw1, hread, ?_, ?_,
    rfl, rfl, rfl⟩
  · rw [hread]; decide
  · intro i hi
    have h3 : i ≠ 3 := by omega
    have h2 : i ≠ 2 := by omega
    have h1 : i ≠ 1 := by omega
    have h0 : i ≠ 0 := by omega
    simp only [Region.put4, h3, h2, h1, h0, if_false]

/-- Witness for C3: the fresh ten-page mapping of the demonstration host. -/
theorem PutUint32_readBack_witness :
    (freshRegion demoHost demoMapping).canWrite = true ∧
    4 ≤ (freshRegion demoHost demoMapping).len ∧
    ∃ r1, PutUint32 ⟨0x10000, 40960⟩ machineCode
        ⟨some (freshRegion demoHost demoMapping), [], []⟩ =
        ((Proc.mk (some (freshRegion demoHost demoMapping)) [] []).log
          (.write 0x10000 [0xC0, 0x03, 0x5F, 0xD6]) (some r1), .ok ()) ∧
      r1.read 0 4 = [0xC0, 0x03, 0x5F, 0xD6] ∧
      Uint32 (r1.read 0 4) = 0xd65f03c0 ∧
      (∀ i, 4 ≤ i → r1.mem i = (freshRegion demoHost demoMapping).mem i) ∧
      r1.base = 0x10000 ∧ r1.len = 40960 ∧ r1.prot = PROT_READ ||| PROT_WRITE :=
  ⟨by decide, by decide,
    PutUint32_readBack ⟨some (freshRegion demoHost demoMapping), [], []⟩
      (freshRegion demoHost demoMapping) rfl (by decide) (by decide)⟩

/-- C4: OS errors surface to the caller and nothing is swallowed or retried.
`mustAllocateByMMap` panics with error `e` exactly when its `Mmap` call fails
with `e`, returns the slice exactly when that call returns it, has no other
outcome, and leaves the process as that one call left it: one `Mmap` event
more than before.  The same holds for `mustMarkAsExecutable` and its
`Mprotect` call. -/
theorem os_errors_surface (h : Host) (p : Proc) (b : Slice) :
    ((∀ e, (mustAllocateByMMap h p).2 = .panic (.err e) ↔
        (Mmap h (allocArgs h) p).2 = .error e) ∧
      (∀ s, (mustAllocateByMMap h p).2 = .ok s ↔ (Mmap h (allocArgs h) p).2 = .ok s) ∧
      ((∃ e, (mustAllocateByMMap h p).2 = .panic (.err e)) ∨
        ∃ s, (mustAllocateByMMap h p).2 = .ok s) ∧
      (mustAllocateByMMap h p).1 = (Mmap h (allocArgs h) p).1 ∧
      ∃ res, ((mustAllocateByMMap h p).1.trace.map Step.ev) =
        p.trace.map Step.ev ++ [.mmap (allocArgs h) res] ∧
        ((∃ e, res = .error e) ↔ ∃ e, (mustAllocateByMMap h p).2 = .panic (.err e))) ∧
    ((∀ e, (mustMarkAsExecutable h b p).2 = .panic (.err e) ↔
        (Mprotect h b (PROT_READ ||| PROT_EXEC) p).2 = some e) ∧
      ((mustMarkAsExecutable h b p).2 = .ok () ↔
        (Mprotect h b (PROT_READ ||| PROT_EXEC) p).2 = none) ∧
      ((∃ e, (mustMarkAsExecutable h b p).2 = .panic (.err e)) ∨
        (mustMarkAsExecutable h b p).2 = .ok ()) ∧
      (mustMarkAsExecutable h b p).1 = (Mprotect h b (PROT_READ ||| PROT_EXEC) p).1 ∧
      ∃ err, ((mustMarkAsExecutable h b p).1.trace.map Step.ev) =
        p.trace.map Step.ev ++ [.mprotect b.ptr b.len (PROT_READ ||| PROT_EXEC) err] ∧
        ((∃ e, err = some e) ↔ ∃ e, (mustMarkAsExecutable h b p).2 = .panic (.err e))) := by
  constructor
  · rcases Nat.eq_zero_or_pos h.pagesize with h0 | hpos
    · have hl : (allocArgs h).length ≤ 0 := by rw [allocArgs_length]; omega
      rw [mustAllocateByMMap_zero_eq h p h0, Mmap_zero_eq h _ p hl]
      simp [Proc.log]
    · have hl : 0 < (allocArgs h).length := by rw [allocArgs_length]; omega
      cases hm : h.mmap (allocArgs h) with
      | error e =>
        rw [mustAllocateByMMap_err_eq h p e hpos hm, Mmap_err_eq h _ p e hl hm]
        simp [Proc.log]
      | ok m =>
        have hnat : (allocArgs h).length.toNat = 10 * h.pagesize := by
          rw [allocArgs_length]; omega
        rw [mustAllocateByMMap_ok_eq h p m hpos hm, Mmap_ok_eq h _ p m hl hm, hnat]
        simp [Proc.log, freshRegion, allocArgs]
  · cases hp : h.mprotect b.ptr b.len (PROT_READ ||| PROT_EXEC) with
    | some e =>
      simp [mustMarkAsExecutable, Mprotect, hp, Proc.log]
    | none =>
      simp [mustMarkAsExecutable, Mprotect, hp, Proc.log]

/-- C5: in every execution of `main`, `exec` is called only after both the
allocation and the protection flip succeeded.  If the kernel refuses the
permission change, `main` panics with that error, `exec` is never called and
nothing, in particular not "ok", is printed.  If the allocation fails, `main`
panics with that error and the failed `Mmap` call is the only event: no write,
no `Mprotect` call and no `exec`. -/
theorem exec_only_after_success (h : Host) :
    (∀ s ∈ (main h).1.trace, s.isExec = true →
      (∃ a ∈ (main h).1.trace, a.isAlloc = true) ∧
      (∃ f ∈ (main h).1.trace, f.isFlip = true) ∧
      (∀ t ∈ (main h).1.trace, ∀ args e, t.ev ≠ .mmap args (.error e)) ∧
      (∀ t ∈ (main h).1.trace, ∀ a l pr e, t.ev ≠ .mprotect a l pr (some e))) ∧
    (∀ s ∈ (main h).1.trace, ∀ a l pr e, s.ev = .mprotect a l pr (some e) →
      (main h).2 = .panic (.err e) ∧
      (∀ t ∈ (main h).1.trace, t.isExec = false) ∧
      "ok\n" ∉ (main h).1.stdout ∧ (main h).1.stdout = []) ∧
    (∀ s ∈ (main h).1.trace, ∀ args e, s.ev = .mmap args (.error e) →
      (main h).2 = .panic (.err e) ∧
      (main h).1.trace.map Step.ev = [.mmap args (.error e)] ∧
      (∀ t ∈ (main h).1.trace, t.isWrite = false ∧ t.isFlip = false ∧ t.isExec = false) ∧
      (main h).1.stdout = []) := by
  rcases main_cases h with ⟨e, _, hmain⟩ | ⟨m, e, _, _, _, hmain⟩ | ⟨m, _, _, _, _, hmain⟩ |
    ⟨m, _, _, _, _, hmain⟩ <;> rw [hmain] <;>
  simp [allocFailStep, allocStep, writeStep, flipStep, flipFailStep, execStep, Step.isExec,
    Step.isAlloc, Step.isFlip, Step.isWrite]

/-- Witness for C5: on a host that refuses to make memory executable, `main`
panics with the kernel's error, never calls `exec` and prints nothing. -/
theorem exec_only_after_success_witness :
    flipFailStep hardenedHost demoMapping 13 ∈ (main hardenedHost).1.trace ∧
    (main hardenedHost).2 = .panic (.err 13) ∧
    (∀ t ∈ (main hardenedHost).1.trace, t.isExec = false) ∧
    "ok\n" ∉ (main hardenedHost).1.stdout ∧ (main hardenedHost).1.stdout = [] :=
  have hs : flipFailStep hardenedHost demoMapping 13 ∈ (main hardenedHost).1.trace := by
    rw [main_hardenedHost]; simp
  ⟨hs, (exec_only_after_success hardenedHost).2.1 _ hs _ _ _ 13 rfl⟩

/-- C6, counterexample: on the demonstration host `exec` returns and `main`
returns normally, yet the region is still mapped when `main` returns: it is
not in state `Released`. -/
theorem main_returns_unreleased :
    (main demoHost).2 = .ok () ∧ (main demoHost).1.released = false ∧
    (main demoHost).1.region.isSome = true := by
  rw [main_demoHost]
  exact ⟨rfl, rfl, rfl⟩

/-- C6, amended: in every execution of `main` in which `exec` returns
normally, the region allocated by `mustAllocateByMMap` is still mapped when
`main` returns, with its full length and read+execute protection: it is not
`Released`, and the events of the execution are the allocation, the write, the
protection flip and the control transfer, none of which unmaps it. -/
theorem main_keeps_region_mapped (h : Host) (hok : (main h).2 = .ok ()) :
    (main h).1.released = false ∧
    ∃ m, h.mmap (allocArgs h) = .ok m ∧
      (main h).1.region =
        some ⟨m.base, 10 * h.pagesize, PROT_READ ||| PROT_EXEC, (writtenRegion h m).mem⟩ ∧
      (main h).1.trace.map Step.ev =
        [.mmap (allocArgs h) (.ok m.base), .write m.base (leBytes32 machineCode),
          .mprotect m.base (10 * h.pagesize) (PROT_READ ||| PROT_EXEC) none, .exec m.base] := by
  rcases main_cases h with ⟨e, _, hmain⟩ | ⟨m, e, _, _, _, hmain⟩ | ⟨m, _, _, _, _, hmain⟩ |
    ⟨m, _, hm, _, _, hmain⟩ <;> rw [hmain] at hok ⊢
  · simp at hok
  · simp at hok
  · simp at hok
  · exact ⟨rfl, m, hm, rfl, rfl⟩

/-- Witness for C6 as amended: the demonstration host. -/
theorem main_keeps_region_mapped_witness :
    (main demoHost).2 = .ok () ∧ (main demoHost).1.released = false :=
  have hok : (main demoHost).2 = .ok () := by rw [main_demoHost]
  ⟨hok, (main_keeps_region_mapped demoHost hok).1⟩

/-- C9: in every successful execution of `main` the region events are exactly
allocate, write, protection flip, `exec`, in that order; the protection flip
happens exactly once; the write happens while the region is mapped read+write
(writable, not executable); no write follows the flip; and once a step has left
the region executable, every later step leaves it executable and not
writable. -/
theorem lifecycle_order (h : Host) (hok : (main h).2 = .ok ()) :
    (∃ m, h.mmap (allocArgs h) = .ok m ∧
      (main h).1.trace.map Step.ev =
        [.mmap (allocArgs h) (.ok m.base), .write m.base (leBytes32 machineCode),
          .mprotect m.base (10 * h.pagesize) (PROT_READ ||| PROT_EXEC) none, .exec m.base]) ∧
    ((main h).1.trace.filter Step.isFlip).length = 1 ∧
    (∀ s ∈ (main h).1.trace, s.isWrite = true →
      ∃ r, s.pre = some r ∧ r.prot = PROT_READ ||| PROT_WRITE ∧
        r.canWrite = true ∧ r.canExec = false) ∧
    (∀ (i j : Nat) (si sj : Step), (main h).1.trace[i]? = some si → (main h).1.trace[j]? = some sj →
      si.isFlip = true → i < j → sj.isWrite = false) ∧
    (∀ (i j : Nat) (si sj : Step) (ri rj : Region), (main h).1.trace[i]? = some si → (main h).1.trace[j]? = some sj →
      i ≤ j → si.post = some ri → ri.canExec = true → sj.post = some rj →
      rj.canWrite = false ∧ rj.canExec = true) := by
  have hrw : ((PROT_READ ||| PROT_WRITE) &&& PROT_WRITE != 0) = true ∧
      ((PROT_READ ||| PROT_WRITE) &&& PROT_EXEC != 0) = false := by decide
  have hrx : ((PROT_READ ||| PROT_EXEC) &&& PROT_WRITE != 0) = false ∧
      ((PROT_READ ||| PROT_EXEC) &&& PROT_EXEC != 0) = true := by decide
  rcases main_cases h with ⟨e, _, hmain⟩ | ⟨m, e, _, _, _, hmain⟩ | ⟨m, _, _, _, _, hmain⟩ |
    ⟨m, _, hm, _, _, hmain⟩ <;> rw [hmain] at hok ⊢
  · simp at hok
  · simp at hok
  · simp at hok
  · refine ⟨⟨m, hm, rfl⟩, rfl, ?_, ?_, ?_⟩
    · simp [allocStep, writeStep, flipStep, execStep, Step.isWrite, freshRegion,
        Region.canWrite, Region.canExec, hrw.1, hrw.2]
      decide
    · intro i j si sj hi hj hf hij
      rcases i with _ | _ | _ | _ | i <;> simp at hi <;> subst hi <;>
        simp [allocStep, writeStep, flipStep, execStep, Step.isFlip] at hf
      rcases j with _ | _ | _ | _ | j <;> simp at hj
      · omega
      · omega
      · omega
      · subst hj; rfl
    · intro i j si sj ri rj hi hj hij hri hx hrj
      rcases i with _ | _ | _ | _ | i <;> simp at hi <;> subst hi <;>
        simp only [allocStep, writeStep, flipStep, execStep, Option.some.injEq] at hri <;>
        subst hri <;>
        simp [freshRegion, writtenRegion, flippedRegion, Region.put4, Region.canExec,
          hrw.2] at hx <;>
      (rcases j with _ | _ | _ | _ | j <;> simp at hj <;> try omega) <;>
      (subst hj
       simp only [flipStep, execStep, Option.some.injEq] at hrj
       subst hrj
       simp [flippedRegion, Region.canWrite, Region.canExec, hrx.1, hrx.2])

/-- Witness for C9: the demonstration host. -/
theorem lifecycle_order_witness :
    (main demoHost).2 = .ok () ∧
    ((main demoHost).1.trace.filter Step.isFlip).length = 1 :=
  have hok : (main demoHost).2 = .ok () := by rw [main_demoHost]
  ⟨hok, (lifecycle_order demoHost hok).2.1⟩

/-- C10: for every page size `P ≥ 1` the accesses of `main` stay in range:
`4 ≤ 10 * P`; `main` never ends in an index-out-of-range panic nor in a
faulting store; every write goes to the base of the region, is 4 bytes long
and fits the region; and every address passed to `exec` is the base of the
region, that is entry offset 0, which lies inside the region of `10 * P` bytes
and is where the written instruction starts. -/
theorem main_in_bounds (h : Host) (P : Nat) (hP : h.pagesize = P) (h1 : 1 ≤ P) :
    4 ≤ 10 * P ∧
    (∀ i n, (main h).2 ≠ .panic (.indexOutOfRange i n)) ∧
    (main h).2 ≠ .fault ∧
    (∀ s ∈ (main h).1.trace, ∀ a bs, s.ev = .write a bs →
      ∃ r, s.pre = some r ∧ a = r.base ∧ bs.length = 4 ∧ r.len = 10 * P ∧
        (a - r.base) + bs.length ≤ r.len) ∧
    (∀ s ∈ (main h).1.trace, ∀ e, s.ev = .exec e →
      ∃ r, s.pre = some r ∧ e = r.base ∧ e - r.base = 0 ∧ e - r.base < r.len ∧
        r.len = 10 * P ∧ r.read (e - r.base) 4 = leBytes32 machineCode) := by
  subst hP
  have hb : leBytes32 machineCode = [0xC0, 0x03, 0x5F, 0xD6] := by decide
  refine ⟨by omega, ?_⟩
  rcases main_cases h with ⟨e, _, hmain⟩ | ⟨m, e, _, _, _, hmain⟩ | ⟨m, _, _, _, _, hmain⟩ |
    ⟨m, _, _, _, _, hmain⟩ <;> rw [hmain] <;>
  simp [allocFailStep, allocStep, writeStep, flipStep, flipFailStep, execStep, hb,
    freshRegion, writtenRegion, flippedRegion, Region.put4, Region.read, List.range_succ] <;>
  omega

/-- Witness for C10: 4 KiB pages. -/
theorem main_in_bounds_witness :
    demoHost.pagesize = 4096 ∧ 1 ≤ 4096 ∧ (main demoHost).2 ≠ .fault :=
  ⟨rfl, by decide, (main_in_bounds demoHost 4096 rfl (by decide)).2.2.1⟩

/-- C8: the word `main` installs is the A64 encoding of `RET X30`, that is
`0xD65F0000 + 32 * n` for `n = 30`, the link register; the processor model
decodes it as that return; its little-endian byte representation is the four
bytes `C0 03 5F D6`; and every write of `main` stores exactly these four bytes
at the base of the region (offset 0). -/
theorem machineCode_is_ret (h : Host) :
    machineCode = A64.encodeRET 30 ∧
    A64.decode machineCode = some (.ret 30) ∧
    (leBytes32 machineCode).length = 4 ∧
    leBytes32 machineCode = [0xC0, 0x03, 0x5F, 0xD6] ∧
    (∀ s ∈ (main h).1.trace, ∀ a bs, s.ev = .write a bs →
      bs = leBytes32 (A64.encodeRET 30) ∧ bs.length = 4 ∧
      ∃ r, s.pre = some r ∧ a = r.base + 0) := by
  have hb : leBytes32 machineCode = [0xC0, 0x03, 0x5F, 0xD6] := by decide
  have hr : leBytes32 (A64.encodeRET 30) = [0xC0, 0x03, 0x5F, 0xD6] := by decide
  refine ⟨by decide, by decide, by decide, hb, ?_⟩
  rcases main_cases h with ⟨e, _, hmain⟩ | ⟨m, e, _, _, _, hmain⟩ | ⟨m, _, _, _, _, hmain⟩ |
    ⟨m, _, _, _, _, hmain⟩ <;> rw [hmain] <;>
  simp [allocFailStep, allocStep, writeStep, flipStep, flipFailStep, execStep, hb, hr,
    freshRegion]

namespace A64

theorem runUntil_ret (mem : Nat → Nat) (c : Cpu) (hf : fetch mem c.pc = machineCode) :
    runUntil mem (c.x 30) 1 c = some { c with pc := c.x 30 } := by
  have hd : decode machineCode = some (.ret 30) := by decide
  by_cases hpc : c.pc = c.x 30
  · have hc : ({ c with pc := c.x 30 } : Cpu) = c := by
      cases c; simp only at hpc; subst hpc; rfl
    simp only [runUntil, hpc, if_true]
    rw [hc]
  · simp only [runUntil, hpc, if_false, step, hf, hd, Option.some_bind, Cpu.reg, if_true]
    simp

/-- A return instruction at the entry point respects the calling convention. -/
theorem ret_conventionRespecting (mem : Nat → Nat) (entry : Nat)
    (hf : fetch mem entry = machineCode) : ConventionRespecting mem entry 1 := by
  intro c hc
  subst hc
  exact ⟨_, runUntil_ret mem c hf, rfl, fun _ _ _ => rfl⟩

/-- A run that ends has reached the return address. -/
theorem runUntil_pc (mem : Nat → Nat) (ret fuel : Nat) (c c1 : Cpu)
    (hrun : runUntil mem ret fuel c = some c1) : c1.pc = ret := by
  induction fuel generalizing c with
  | zero =>
    by_cases hpc : c.pc = ret
    · simp only [runUntil, hpc, if_true, Option.some.injEq] at hrun
      rw [← hrun]; exact hpc
    · simp [runUntil, hpc] at hrun
  | succ k ih =>
    by_cases hpc : c.pc = ret
    · simp only [runUntil, hpc, if_true, Option.some.injEq] at hrun
      rw [← hrun]; exact hpc
    · simp only [runUntil, hpc, if_false] at hrun
      cases hst : step mem c with
      | none => simp [hst] at hrun
      | some c2 =>
        rw [hst, Option.some_bind] at hrun
        exact ih c2 hrun

/-- C7: for every entry point at which a convention-respecting instruction
sequence ending in a return is installed, `exec` returns, and the state the
caller can observe afterwards (callee-saved registers `X19` to `X29`, link
register, stack pointer) equals the state immediately before the call; control
resumes right after the branch. -/
theorem exec_roundTrip (mem : Nat → Nat) (entry fuel : Nat) (c : Cpu)
    (hcode : ConventionRespecting mem entry fuel) :
    ∃ c1, exec mem fuel entry c = some c1 ∧ callerView c1 = callerView c ∧
      c1.pc = c.pc + 4 ∧ c1.sp = c.sp ∧ ∀ n, 19 ≤ n → n ≤ 30 → c1.x n = c.x n := by
  obtain ⟨c2, hrun, hsp, hregs⟩ :=
    hcode { c with x := fun k => if k = 30 then c.pc + 4 else c.x k, pc := entry } rfl
  simp only [if_true] at hrun
  have hx : ∀ n, 19 ≤ n → n ≤ 30 →
      (if n = 30 then c.x 30 else c2.x n) = c.x n := by
    intro n h19 h30
    by_cases hn : n = 30
    · simp [hn]
    · have := hregs n h19 (by omega)
      simp only [hn, if_false] at this ⊢
      exact this
  refine ⟨{ c2 with x := fun k => if k = 30 then c.x 30 else c2.x k }, ?_, ?_, ?_, hsp, hx⟩
  · simp only [exec, hrun, Option.map_some']
  · simp only [callerView, Prod.mk.injEq]
    refine ⟨List.map_congr_left fun i hi => ?_, hsp⟩
    have hi12 : i < 12 := List.mem_range.mp hi
    exact hx (19 + i) (by omega) (by omega)
  · exact runUntil_pc mem _ fuel _ c2 hrun

/-- The region `main` wrote on the demonstration host holds the return
instruction at its base. -/
theorem fetch_writtenRegion :
    fetch (regionMemory (writtenRegion demoHost demoMapping)) 0x10000 = machineCode := by
  decide

/-- Witness for C7: the region `main` wrote on the demonstration host holds a
convention-respecting sequence at its base, and `exec` from the demonstration
thread comes back with the caller's view unchanged. -/
theorem exec_roundTrip_witness :
    ConventionRespecting (regionMemory (writtenRegion demoHost demoMapping)) 0x10000 1 ∧
    ∃ c1, exec (regionMemory (writtenRegion demoHost demoMapping)) 1 0x10000 demoCpu = some c1 ∧
      callerView c1 = callerView demoCpu ∧ c1.pc = demoCpu.pc + 4 ∧ c1.sp = demoCpu.sp ∧
      ∀ n, 19 ≤ n → n ≤ 30 → c1.x n = demoCpu.x n :=
  ⟨ret_conventionRespecting _ _ fetch_writtenRegion,
    exec_roundTrip _ 0x10000 1 demoCpu (ret_conventionRespecting _ _ fetch_writtenRegion)⟩

end A64

end RuntimeCodeGen
